import Mathlib

/-!
Verification development for the flatrstore repository
(files `flatrstore.py`, `updater.py`).

The Python source is shallowly embedded: pure helpers become Lean
functions over `String` / `List Char` / `Nat`; filesystem and network
effects become explicit state passing over association lists; library
calls whose internals are outside the repository (the `html.unescape`
table, the `hashlib` digest, `xml.etree` parsing) are taken as function
parameters, since the repository only relies on them being deterministic
functions.
-/

namespace Flatr

/-! ### Python string primitives used by the source -/

/-- Model of Python `str.strip()` on ASCII whitespace. -/
def pyStrip (s : String) : String :=
  String.mk (((s.toList.dropWhile Char.isWhitespace).reverse.dropWhile Char.isWhitespace).reverse)

/-- Model of Python `str.lower()` (ASCII). -/
def lowerStr (s : String) : String :=
  String.mk (s.toList.map Char.toLower)

/-- Model of Python `str.endswith`. -/
def strEndsWith (s p : String) : Bool :=
  p.toList.isSuffixOf s.toList

/-- Model of the Python idiom `a or b` on strings (empty string is falsy). -/
def pyOr (a b : String) : String :=
  if a = "" then b else a

/-! ### Version Resolver (`updater.py`, `version_tuple` / tuple comparison)

`version_tuple` extracts the maximal runs of decimal digits of a version
string, in order, as numbers; a string without digits gives `[0]`.
`pyTupLt` is the comparison Python performs on two integer tuples with
`<` (lexicographic, a proper prefix is smaller). -/

/-- Accumulator-passing extraction of maximal digit runs
(`re.findall(r"\d+", s)`). The second argument is the reversed current
run, `[]` when no run is open. -/
def digitRunsAux : List Char → List Char → List (List Char)
  | [], [] => []
  | [], acc => [acc.reverse]
  | c :: cs, acc =>
    if c.isDigit then digitRunsAux cs (c :: acc)
    else
      match acc with
      | [] => digitRunsAux cs []
      | _ :: _ => acc.reverse :: digitRunsAux cs []

/-- Value of a run of decimal digits (Python `int`). -/
def digitsVal (l : List Char) : Nat :=
  l.foldl (fun a c => a * 10 + (c.toNat - 48)) 0

/-- `updater.py` `version_tuple`: digit runs as numbers, `[0]` when none. -/
def version_tuple (s : String) : List Nat :=
  match digitRunsAux s.toList [] with
  | [] => [0]
  | rs => rs.map digitsVal

/-- Python `<` on integer tuples: lexicographic, proper prefix is smaller. -/
def pyTupLt : List Nat → List Nat → Bool
  | [], [] => false
  | [], _ :: _ => true
  | _ :: _, [] => false
  | a :: as, b :: bs =>
    if a < b then true
    else if b < a then false
    else pyTupLt as bs

/-! ### Update-availability flag (`flatrstore.py` lines 633-638)

`RepoFetchThread._fetch_repo_info` sets
`item["update_available"] = bool(iv and version and iv != version)`
where `iv` is the resolved installed version (`None` when unknown). -/

/-- The `update_available` field computed by `_fetch_repo_info`. -/
def update_available (iv : Option String) (version : String) : Bool :=
  match iv with
  | none => false
  | some s => s != "" && version != "" && s != version

/-! ### XML model (`xml.etree.ElementTree` values)

An element has a tag, optional text (the text before its first child,
`None` in Python when absent) and a list of children.  Parsing a string
into such a tree is done by the Python standard library; the embedding
passes the parser as a function `String → Option Xml`, `none` standing
for a parse error (`ET.fromstring` raising). -/

inductive Xml where
  | elem (tag : String) (text : Option String) (children : List Xml)

def Xml.tag : Xml → String
  | Xml.elem t _ _ => t

def Xml.text : Xml → Option String
  | Xml.elem _ tx _ => tx

def Xml.children : Xml → List Xml
  | Xml.elem _ _ cs => cs

/-- `element.find(tag)`: first direct child whose tag matches exactly. -/
def findChild (x : Xml) (tag : String) : Option Xml :=
  x.children.find? (fun c => c.tag == tag)

/-- `element.iter()`: the element followed by its descendants, preorder. -/
def iterNodes : Xml → List Xml
  | Xml.elem t tx cs => Xml.elem t tx cs :: iterChildren cs
where iterChildren : List Xml → List Xml
  | [] => []
  | c :: cs => iterNodes c ++ iterChildren cs

/-- Python truthiness of an element text (`el.text` as a condition). -/
def textTruthy : Option String → Bool
  | some t => t != ""
  | none => false

/-! ### Metadata Parser (`flatrstore.py` `parse_details_xml`) -/

/-- The inner fallback loop of `find_any`: first node of `base.iter()`
whose lowercased tag ends with the lowercased target and whose text is
truthy. -/
def findIter (base : Xml) (tag : String) : Option String :=
  match (iterNodes base).find?
      (fun it => strEndsWith (lowerStr it.tag) (lowerStr tag) && textTruthy it.text) with
  | some it => some (pyStrip (it.text.getD ""))
  | none => none

/-- `find_any(base, tag)` from `parse_details_xml`: exact direct child
first, then the case-insensitive suffix search over the subtree. -/
def find_any (base : Xml) (tag : String) : Option String :=
  match findChild base tag with
  | some el =>
    if textTruthy el.text then some (pyStrip (el.text.getD "")) else findIter base tag
  | none => findIter base tag

/-- Result record of `parse_details_xml` (`raw` keeps the input text). -/
structure Details where
  publisher : String
  name : String
  version : String
  raw : String
deriving DecidableEq

/-- Field extraction applied to the element the parser settles on. -/
def fillDetails (base : Xml) (raw : String) : Details :=
  { publisher := (find_any base "publisher").getD ""
    name := (find_any base "name").getD ""
    version := (find_any base "version").getD ""
    raw := raw }

/-- `parse_details_xml(xml_text)`.  `px` is the `ET.fromstring` oracle;
`px s = none` models a parse error (caught: all fields stay empty). -/
def parse_details_xml (px : String → Option Xml) (xml_text : String) : Details :=
  let base : Details := ⟨"", "", "", xml_text⟩
  if xml_text = "" then base
  else
    match px xml_text with
    | none => base
    | some root =>
      if lowerStr root.tag = "app" then fillDetails root xml_text
      else
        match findChild root "app" with
        | some appElem => fillDetails appElem xml_text
        | none => fillDetails root xml_text

/-! ### Catalog deduplication (`flatrstore.py` `RepoFetchThread.run` 561-567) -/

/-- The fields of a resolved entry dict that the dedup step consults. -/
structure Item where
  repo : String
  app : String
  name : String
  publisher : String
deriving DecidableEq

/-- The dedup key `(item.get("app") or item.get("name", ""), item.get("publisher", ""))`. -/
def dkey (it : Item) : String × String :=
  (if it.app = "" then it.name else it.app, it.publisher)

/-- The loop over `results` with its `seen_keys` set. -/
def dedupAux (seen : List (String × String)) : List Item → List Item
  | [] => []
  | x :: xs =>
    if dkey x ∈ seen ∨ dkey x = ("", "") then dedupAux seen xs
    else x :: dedupAux (dkey x :: seen) xs

/-- The deduplication step producing `unique_results`. -/
def dedup_entries (l : List Item) : List Item :=
  dedupAux [] l

/-- The `seen_keys` set after processing a prefix of the entry list. -/
def seenAfter (seen : List (String × String)) : List Item → List (String × String)
  | [] => seen
  | x :: xs =>
    if dkey x ∈ seen ∨ dkey x = ("", "") then seenAfter seen xs
    else seenAfter (dkey x :: seen) xs

/-! ### Content Cache (`flatrstore.py` `save_icon_to_cache_unique`)

State: the hash→path index (`index.json`), the set of file paths present
in the icon cache directory, and a count of `write_bytes` calls.  Disk
writes are modelled as succeeding. -/

structure IconState where
  idx : List (String × String)
  files : List String
  writes : Nat
deriving DecidableEq

/-- Index lookup (`h in idx`). -/
def lookupIdx (idx : List (String × String)) (h : String) : Option String :=
  (idx.find? (fun p => p.1 == h)).map (fun p => p.2)

/-- `safe_name`: unescape, strip, replace every character outside
`[\w.-]` with `_`, default `"unknown"`.  `unescape` is the
`html.unescape` table, passed as a parameter. -/
def safe_name (unescape : String → String) (s : String) : String :=
  let t := pyStrip (unescape s)
  let u := String.mk (t.toList.map
    (fun c => if c.isAlphanum ∨ c = '_' ∨ c = '.' ∨ c = '-' then c else '_'))
  if u = "" then "unknown" else u

/-- The `while` loop probing `base_1.ico`, `base_2.ico`, … for a free
name; `fuel` bounds the search (the caller passes more candidates than
existing files, so the bound is never the value returned). -/
def firstFreeAux (files : List String) (base : String) : Nat → Nat → String
  | i, 0 => base ++ "_" ++ toString i ++ ".ico"
  | i, fuel + 1 =>
    let candidate := base ++ "_" ++ toString i ++ ".ico"
    if candidate ∈ files then firstFreeAux files base (i + 1) fuel else candidate

/-- `save_icon_to_cache_unique(repo, publisher, name, version, content)`.
Returns `((path, hash), state)`. -/
def save_icon_to_cache_unique (unescape : String → String)
    (sha1hex : List Nat → String) (st : IconState)
    (publisher name version : String) (content : List Nat) :
    (Option String × Option String) × IconState :=
  if content = [] then ((none, none), st)
  else
    let h := sha1hex content
    match lookupIdx st.idx h with
    | some p => ((some p, some h), st)
    | none =>
      let base := safe_name unescape publisher ++ "." ++ safe_name unescape name
        ++ "." ++ safe_name unescape version
      let fname := base ++ ".ico"
      let path := if fname ∈ st.files then firstFreeAux st.files base 1 (st.files.length + 1)
        else fname
      ((some path, some h),
        { idx := (h, path) :: st.idx, files := path :: st.files, writes := st.writes + 1 })

/-! ### Install Manager (`flatrstore.py` `InstallThread.run`)

The filesystem below the destination directory is an association list
from entry name to node; a node is a file with contents or a directory
with its own entries. -/

inductive FsNode where
  | file (content : String)
  | dir (entries : List (String × FsNode))

/-- Name lookup in a directory listing. -/
def lookupFs : List (String × FsNode) → String → Option FsNode
  | [], _ => none
  | p :: rest, n => if p.1 = n then some p.2 else lookupFs rest n

/-- Whether the entry at `n` exists and is a directory. -/
def isDirAt (d : List (String × FsNode)) (n : String) : Bool :=
  match lookupFs d n with
  | some (FsNode.dir _) => true
  | _ => false

/-- Remove the entry named `n` (the `rmtree` / `unlink` on an existing
target before a move). -/
def eraseKeyF : List (String × FsNode) → String → List (String × FsNode)
  | [], _ => []
  | p :: rest, n => if p.1 = n then eraseKeyF rest n else p :: eraseKeyF rest n

/-- One iteration of the move loop: delete any pre-existing target of
that name, then `shutil.move` the entry in. -/
def moveOne (d : List (String × FsNode)) (e : String × FsNode) : List (String × FsNode) :=
  eraseKeyF d e.1 ++ [e]

/-- The move loop over a list of entries. -/
def moveAll (items : List (String × FsNode)) (d : List (String × FsNode)) :
    List (String × FsNode) :=
  items.foldl moveOne d

/-- Lines 709-728: a single extracted top-level directory is unwrapped
(its children are moved), otherwise the top-level entries are moved. -/
def movePhase (entries : List (String × FsNode)) (d : List (String × FsNode)) :
    List (String × FsNode) :=
  match entries with
  | [(_, FsNode.dir cs)] => moveAll cs d
  | _ => moveAll entries d

/-- `Path.write_text` with its enclosing `try/except: pass`: writing to
a path occupied by a directory fails silently, otherwise the file is
(over)written. -/
def writeFileSoft (d : List (String × FsNode)) (n content : String) :
    List (String × FsNode) :=
  match lookupFs d n with
  | some (FsNode.dir _) => d
  | _ => eraseKeyF d n ++ [(n, FsNode.file content)]

/-- Destination contents after the finalization of a successful run:
the move phase into the freshly created (empty) destination followed by
the metadata write-backs of `details.xml` and `README.md` (each only
when the fetched text is non-empty). -/
def finalizeDest (details_xml readme : String) (entries : List (String × FsNode)) :
    List (String × FsNode) :=
  let moved := movePhase entries []
  let d1 := if details_xml ≠ "" then writeFileSoft moved "details.xml" details_xml else moved
  if readme ≠ "" then writeFileSoft d1 "README.md" readme else d1

/-- The entry fields `InstallThread` consults (`self.info`). -/
structure InstallInfo where
  repo : String
  app : String
  name : String
  publisher : String
  version : String
  details_xml : String
  readme : String
deriving DecidableEq

/-- External circumstances of one run: HTTP status of the archive
download, the streamed chunks, from which chunk-check the cancellation
flag reads true (`none`: never), whether `extractall` succeeds, the
exception text if not, the extracted top-level entries, and the
pre-existing state of the destination directory. -/
structure InstallEnv where
  status : Nat
  chunks : List (List Nat)
  cancelFrom : Option Nat
  extractOk : Bool
  errText : String
  zipEntries : List (String × FsNode)
  destPre : Option (List (String × FsNode))

/-- The cooperative flag as read at chunk-iteration `i`. -/
def cancelledAt (cf : Option Nat) (i : Nat) : Bool :=
  match cf with
  | some k => k ≤ i
  | none => false

/-- The download loop: returns `true` when some iteration observes the
flag (the thread then deletes the temp file and returns). -/
def downloadCancelled (cf : Option Nat) : List (List Nat) → Nat → Bool
  | [], _ => false
  | _ :: rest, i => if cancelledAt cf i then true else downloadCancelled cf rest (i + 1)

/-- Destination directory name `{pub}.{app_name}.{ver}` computed at the
top of `InstallThread.run`. -/
def destName (unescape : String → String) (info : InstallInfo) : String :=
  safe_name unescape (pyOr info.publisher "unknown") ++ "."
    ++ safe_name unescape (pyOr info.app info.repo) ++ "."
    ++ safe_name unescape (pyOr info.version "0.0.0")

/-- Observable outcome of one `InstallThread.run`: the
`finished_install` payload `(ok, message)`, whether the temp zip and the
temp extraction directory survive, and the destination directory state
(`none` when it does not exist). -/
structure InstallOut where
  result : Bool × String
  tmpLeft : Bool
  extractLeft : Bool
  dest : Option (List (String × FsNode))

/-- `InstallThread.run`.  The `finally` block always removes the temp
artifacts, so `tmpLeft` and `extractLeft` are false on every path; the
destination is replaced only after a fully successful extraction. -/
def installRun (unescape : String → String) (info : InstallInfo) (env : InstallEnv) :
    InstallOut :=
  if env.status ≠ 200 then
    ⟨(false, "HTTP " ++ toString env.status ++ " al descargar ZIP"), false, false, env.destPre⟩
  else if downloadCancelled env.cancelFrom env.chunks 0 then
    ⟨(false, "Cancelado"), false, false, env.destPre⟩
  else if env.extractOk = false then
    ⟨(false, "Error: " ++ env.errText), false, false, env.destPre⟩
  else
    ⟨(true, "Instalado en: " ++ destName unescape info), false, false,
      some (finalizeDest info.details_xml info.readme env.zipEntries)⟩

/-! ### Install-state resolver (`flatrstore.py` `installed_version_for`)

The installation root is a list of `(directoryName, details)` pairs
where `details` is the content of the `details.xml` the resolver would
read inside that directory (`none` when absent).  The glob
`{pub}.{nm}.*` is prefix matching, since `safe_name` output contains no
glob metacharacters. -/

/-- `details.xml` content of a destination directory as produced by the
install thread (`is_file()` check then read). -/
def destDetailsContent (d : List (String × FsNode)) : Option String :=
  match lookupFs d "details.xml" with
  | some (FsNode.file c) => some c
  | _ => none

/-- The publisher component of the scan key. -/
def resolverPub (unescape : String → String) (info : InstallInfo) : String :=
  safe_name unescape (pyOr info.publisher "unknown")

/-- The name component of the scan key
(`info.get("app") or info.get("name") or info.get("repo")`). -/
def resolverNm (unescape : String → String) (info : InstallInfo) : String :=
  safe_name unescape (pyOr info.app (pyOr info.name info.repo))

/-- Glob match of a directory name against `{pub}.{nm}.*`. -/
def matchesInstalled (unescape : String → String) (info : InstallInfo) (dname : String) :
    Bool :=
  (resolverPub unescape info ++ "." ++ resolverNm unescape info ++ ".").toList.isPrefixOf
    dname.toList

/-- `sorted(versions, key=lambda p: p.name, reverse=True)[0]`: the
first element of maximal name. -/
def pickLexGreatest : List (String × Option String) → Option (String × Option String)
  | [] => none
  | d :: ds => some (ds.foldl (fun best x => if best.1 < x.1 then x else best) d)

/-- `parsed.get("version") or None`. -/
def strOrNone (s : String) : Option String :=
  if s = "" then none else some s

/-- `installed_version_for(info)` over a modelled installation root.
Returns `(installedVersion, installedPath)`. -/
def installed_version_for (px : String → Option Xml) (unescape : String → String)
    (root : List (String × Option String)) (info : InstallInfo) :
    Option String × Option String :=
  let cands := root.filter (fun d => matchesInstalled unescape info d.1)
  match pickLexGreatest cands with
  | none => (none, none)
  | some (dname, odet) =>
    match odet with
    | none => (none, some dname)
    | some txt => (strOrNone (parse_details_xml px txt).version, some dname)

/-! ### Update Daemon (`updater.py`)

The app folder is an association list from relative path to file
content.  Network responses are parameters: `remoteResp` the body of
the remote `details.xml` request (`none`: failure or non-200) and
`remoteFile` the per-path raw fetch. -/

abbrev UFS := List (String × String)

/-- Path lookup in the app folder. -/
def ulookup : UFS → String → Option String
  | [], _ => none
  | p :: rest, n => if p.1 = n then some p.2 else ulookup rest n

/-- Removal of any previous entry at a path. -/
def eraseKeyU : UFS → String → UFS
  | [], _ => []
  | p :: rest, n => if p.1 = n then eraseKeyU rest n else p :: eraseKeyU rest n

/-- `Path.write_text`: replace or create the file at `k`. -/
def setFileU (fs : UFS) (k v : String) : UFS :=
  (k, v) :: eraseKeyU fs k

/-- `parse_details(path)`: app id and version, `none` on any failure
(missing element, missing text — the `except` branch). -/
def parse_details (px : String → Option Xml) (txt : String) :
    Option (String × String) :=
  match px txt with
  | none => none
  | some root =>
    match findChild root "app" with
    | none => none
    | some appEl =>
      match appEl.text with
      | none => none
      | some ta =>
        match findChild root "version" with
        | none => none
        | some verEl =>
          match verEl.text with
          | none => none
          | some tv => some (pyStrip ta, pyStrip tv)

/-- `remote_details(app_id)` given the response body: `(raw, version)`
or `none` on any failure. -/
def remote_details (px : String → Option Xml) (resp : Option String) :
    Option (String × String) :=
  match resp with
  | none => none
  | some txt =>
    match px txt with
    | none => none
    | some root =>
      match findChild root "version" with
      | none => none
      | some verEl =>
        match verEl.text with
        | none => none
        | some tv => some (txt, pyStrip tv)

/-- `safe_backup(path)`: copy the file to `path + ".bak"` when it exists. -/
def safe_backup (fs : UFS) (p : String) : UFS :=
  match ulookup fs p with
  | some c => setFileU fs (p ++ ".bak") c
  | none => fs

/-- One iteration of the per-file sync loop: fetch the relative path
upstream; on success back the file up and overwrite it, otherwise leave
it untouched. -/
def sync_step (remoteFile : String → Option String) (fs : UFS) (n : String) : UFS :=
  match remoteFile n with
  | some c => setFileU (safe_backup fs n) n c
  | none => fs

/-- The file names the `os.walk` loop visits: every file except `.bak`
backups and the descriptor itself. -/
def walk_names (fs : UFS) : List String :=
  (fs.map (fun p => p.1)).filter
    (fun n => !(strEndsWith n ".bak") && !(n == "details.xml"))

/-- The per-file sync loop. -/
def sync_files (remoteFile : String → Option String) (names : List String) (fs : UFS) :
    UFS :=
  names.foldl (sync_step remoteFile) fs

/-- The early-return cascade at the top of `update_app`: `none` when
the local descriptor cannot be read or has a falsy app id, the remote
version cannot be fetched or is falsy, or the remote digit tuple is not
strictly greater than the local one; otherwise the data the update step
uses: `(app_id, local_ver, remote_xml, remote_ver)`. -/
def update_guards (px : String → Option Xml) (remoteResp : Option String) (fs : UFS) :
    Option (String × String × String × String) :=
  match ulookup fs "details.xml" with
  | none => none
  | some localTxt =>
    match parse_details px localTxt with
    | none => none
    | some (app_id, local_ver) =>
      if app_id = "" then none
      else
        match remote_details px remoteResp with
        | none => none
        | some (remote_xml, remote_ver) =>
          if remote_ver = "" then none
          else if pyTupLt (version_tuple local_ver) (version_tuple remote_ver) then
            some (app_id, local_ver, remote_xml, remote_ver)
          else none

/-- `update_app(app_folder)`: returns the `(app_id, old, new)` result
(`none` when nothing was done) and the resulting folder state. -/
def update_app (px : String → Option Xml) (remoteResp : Option String)
    (remoteFile : String → Option String) (fs : UFS) :
    Option (String × String × String) × UFS :=
  match update_guards px remoteResp fs with
  | none => (none, fs)
  | some (app_id, local_ver, remote_xml, remote_ver) =>
    let fs1 := safe_backup fs "details.xml"
    let fs2 := setFileU fs1 "details.xml" remote_xml
    let fs3 := sync_files remoteFile (walk_names fs2) fs2
    (some (app_id, local_ver, remote_ver), fs3)

/-- Whether the guard cascade fires. -/
def update_fires (px : String → Option Xml) (remoteResp : Option String) (fs : UFS) :
    Bool :=
  (update_guards px remoteResp fs).isSome

/-! ## Helper lemmas -/

theorem digitRunsAux_append_dot_zero :
    ∀ (s : List Char) (acc : List Char),
      digitRunsAux (s ++ ['.', '0']) acc = digitRunsAux s acc ++ [['0']] := by
  intro s
  induction s with
  | nil =>
    intro acc
    cases acc with
    | nil => rfl
    | cons a as => rfl
  | cons c cs ih =>
    intro acc
    by_cases hc : c.isDigit
    · simp [digitRunsAux, hc, ih]
    · cases acc with
      | nil => simp [digitRunsAux, hc, ih]
      | cons a as => simp [digitRunsAux, hc, ih]

theorem version_tuple_append_dot_zero (v : String)
    (h : digitRunsAux v.toList [] ≠ []) :
    version_tuple (v ++ ".0") = version_tuple v ++ [0] := by
  have hl : (v ++ ".0").toList = v.toList ++ ['.', '0'] := by
    simp [String.toList, String.data_append]
  unfold version_tuple
  rw [hl, digitRunsAux_append_dot_zero]
  rcases hrs : digitRunsAux v.toList [] with _ | ⟨r, rs⟩
  · exact absurd hrs h
  · simp [digitsVal]

theorem pyTupLt_append_zero : ∀ t : List Nat, pyTupLt t (t ++ [0]) = true := by
  intro t
  induction t with
  | nil => rfl
  | cons a as ih => simp [pyTupLt, ih]

/-! ## Claim C1: the update-availability flag -/

/-- Claim C1, counterexample.  The claim states the flag is true iff the
installed digit tuple is strictly below the catalog tuple (and both
strings non-empty).  At installed `"2.0"`, catalog `"1.9"` the code sets
the flag (the strings differ) although the installed tuple is strictly
greater, so the claimed biconditional is false at this input. -/
theorem c1_counterexample :
    update_available (some "2.0") "1.9" = true ∧
      pyTupLt (version_tuple "2.0") (version_tuple "1.9") = false := by
  decide

/-- Claim C1, amended.  `update_available` (set in
`RepoFetchThread._fetch_repo_info`) is true iff the installed version is
known and non-empty, the catalog version is non-empty, and the two
strings differ — plain string inequality, not a numeric-tuple order.
Consequently installed `"1.2"` vs catalog `"1.2.1"` gives true,
installed `"2.0"` vs catalog `"1.9"` also gives true, and an unknown or
empty installed version always gives false. -/
theorem c1_update_available_amended :
    (∀ v : String, update_available none v = false) ∧
    (∀ s v : String, update_available (some s) v = true ↔ (s ≠ "" ∧ v ≠ "" ∧ s ≠ v)) ∧
    update_available (some "1.2") "1.2.1" = true ∧
    update_available (some "2.0") "1.9" = true ∧
    update_available (some "") "1.0" = false := by
  refine ⟨fun v => rfl, fun s v => ?_, by decide, by decide, by decide⟩
  simp [update_available, and_assoc]

/-! ## Claim C7: no zero-padding in tuple comparison -/

/-- Claim C7, counterexample.  The claim says `v` and `v ++ ".0"`
compare as equal.  For `v = "1"` the code produces tuples `[1]` and
`[1, 0]`, and Python tuple order makes the proper prefix strictly
smaller, so `"1.0"` is reported strictly newer than `"1"`. -/
theorem c7_counterexample :
    pyTupLt (version_tuple "1") (version_tuple ("1" ++ ".0")) = true ∧
      version_tuple "1" ≠ version_tuple ("1" ++ ".0") := by
  decide

/-- Claim C7, amended.  There is no implicit zero-padding: for every
version string with at least one digit run, appending `".0"` appends a
`0` component to its tuple, and the original tuple compares strictly
smaller (a proper prefix is smaller in Python tuple order), so
`v ++ ".0"` is reported strictly newer than `v`, not equal.  The
standard-convention example `"1.2" < "1.2.1"` does hold. -/
theorem c7_version_tuple_amended :
    pyTupLt (version_tuple "1.2") (version_tuple "1.2.1") = true ∧
    (∀ v : String, digitRunsAux v.toList [] ≠ [] →
      version_tuple (v ++ ".0") = version_tuple v ++ [0] ∧
        pyTupLt (version_tuple v) (version_tuple (v ++ ".0")) = true) := by
  refine ⟨by decide, fun v h => ?_⟩
  have he := version_tuple_append_dot_zero v h
  exact ⟨he, by rw [he]; exact pyTupLt_append_zero _⟩

/-- Claim C7 witness: the amended statement applied at `v = "1"`. -/
theorem c7_version_tuple_amended_witness :
    digitRunsAux "1".toList [] ≠ [] ∧
      (version_tuple ("1" ++ ".0") = version_tuple "1" ++ [0] ∧
        pyTupLt (version_tuple "1") (version_tuple ("1" ++ ".0")) = true) :=
  ⟨by decide, c7_version_tuple_amended.2 "1" (by decide)⟩

/-! ## Claim C2: content-cache dedup -/

/-- Claim C2.  For every non-empty byte buffer, storing it twice in the
Content Cache returns the same path both times (a path is returned), the
second call leaves the cache state untouched (no write, the indexed path
is returned), and across the two calls the file is written at most
once. -/
theorem c2_store_idempotent (unescape : String → String) (sha1hex : List Nat → String)
    (st : IconState) (p1 n1 v1 p2 n2 v2 : String) (content : List Nat)
    (hne : content ≠ []) :
    (save_icon_to_cache_unique unescape sha1hex st p1 n1 v1 content).1.1 =
        (save_icon_to_cache_unique unescape sha1hex
          (save_icon_to_cache_unique unescape sha1hex st p1 n1 v1 content).2
          p2 n2 v2 content).1.1 ∧
      (save_icon_to_cache_unique unescape sha1hex st p1 n1 v1 content).1.1 ≠ none ∧
      (save_icon_to_cache_unique unescape sha1hex
          (save_icon_to_cache_unique unescape sha1hex st p1 n1 v1 content).2
          p2 n2 v2 content).2 =
        (save_icon_to_cache_unique unescape sha1hex st p1 n1 v1 content).2 ∧
      (save_icon_to_cache_unique unescape sha1hex st p1 n1 v1 content).2.writes ≤
        st.writes + 1 := by
  unfold save_icon_to_cache_unique
  simp only [if_neg hne]
  rcases hidx : lookupIdx st.idx (sha1hex content) with _ | p
  · simp only [hidx]
    simp [lookupIdx, List.find?]
  · simp only [hidx]
    simp

/-- Claim C2 witness: two stores of the buffer `[1]` into an empty cache
return the same path. -/
theorem c2_store_idempotent_witness :
    (save_icon_to_cache_unique id (fun _ => "H") ⟨[], [], 0⟩ "p" "n" "v" [1]).1.1 =
      (save_icon_to_cache_unique id (fun _ => "H")
        (save_icon_to_cache_unique id (fun _ => "H") ⟨[], [], 0⟩ "p" "n" "v" [1]).2
        "q" "m" "w" [1]).1.1 :=
  (c2_store_idempotent id (fun _ => "H") ⟨[], [], 0⟩ "p" "n" "v" "q" "m" "w" [1]
    (by decide)).1

/-! ## Claim C3: cancellation during download -/

theorem downloadCancelled_of_lt :
    ∀ (chunks : List (List Nat)) (i k : Nat), i ≤ k → k < i + chunks.length →
      downloadCancelled (some k) chunks i = true := by
  intro chunks
  induction chunks with
  | nil =>
    intro i k hik hlt
    simp at hlt
    omega
  | cons c cs ih =>
    intro i k hik hlt
    unfold downloadCancelled
    by_cases hki : k ≤ i
    · simp [cancelledAt, hki]
    · have h1 : i + 1 ≤ k := by omega
      have h2 : k < (i + 1) + cs.length := by
        simp at hlt
        omega
      simp [cancelledAt, hki]
      exact ih (i + 1) k h1 h2

/-- Claim C3.  If the cancellation flag is set at some point observed
during the download loop (some chunk iteration sees it), the operation
emits exactly `(False, "Cancelado")` — not a success and not one of the
failure messages — the temporary download file and temporary extraction
directory are gone, and the destination path is exactly as it was before
the operation (nothing was created there). -/
theorem c3_cancel_cleanup (unescape : String → String) (info : InstallInfo)
    (env : InstallEnv) (k : Nat) (h200 : env.status = 200)
    (hc : env.cancelFrom = some k) (hk : k < env.chunks.length) :
    installRun unescape info env =
      ⟨(false, "Cancelado"), false, false, env.destPre⟩ := by
  have hdl : downloadCancelled env.cancelFrom env.chunks 0 = true := by
    rw [hc]
    exact downloadCancelled_of_lt env.chunks 0 k (Nat.zero_le k) (by omega)
  unfold installRun
  rw [h200, hdl]
  simp

/-- Claim C3 witness: a two-chunk download whose flag is set before the
first chunk check ends Cancelled, deletes the temp file and leaves the
(absent) destination absent. -/
theorem c3_cancel_cleanup_witness :
    installRun id ⟨"r", "a", "n", "p", "1.0", "DX", "RM"⟩
        ⟨200, [[1], [2]], some 0, true, "", [], none⟩ =
      ⟨(false, "Cancelado"), false, false, none⟩ :=
  c3_cancel_cleanup id ⟨"r", "a", "n", "p", "1.0", "DX", "RM"⟩
    ⟨200, [[1], [2]], some 0, true, "", [], none⟩ 0 rfl rfl (by decide)

/-! ## Claim C4: metadata parser fails soft -/

/-- Claim C4.  `parse_details_xml` is a total function (the embedding is
a Lean function, matching the `try/except` that never lets an exception
escape).  On any malformed input — the parse oracle returns `none`, as
`ET.fromstring` raising — all three fields come back as empty strings.
On a well-formed descriptor whose consulted `app` element has a direct
`version` child with non-empty text, the `version` field is exactly that
text stripped of surrounding whitespace: stated both for a root `app`
element and for a root containing a nested `app` element. -/
theorem c4_parse_details_soft (px : String → Option Xml) :
    (∀ s, px s = none → parse_details_xml px s = ⟨"", "", "", s⟩) ∧
    (∀ s x el t, s ≠ "" → px s = some x → lowerStr x.tag = "app" →
      findChild x "version" = some el → el.text = some t → t ≠ "" →
      (parse_details_xml px s).version = pyStrip t) ∧
    (∀ s x a el t, s ≠ "" → px s = some x → lowerStr x.tag ≠ "app" →
      findChild x "app" = some a →
      findChild a "version" = some el → el.text = some t → t ≠ "" →
      (parse_details_xml px s).version = pyStrip t) := by
  refine ⟨fun s hpx => ?_, fun s x el t hs hpx htag hfc htx htt => ?_,
    fun s x a el t hs hpx htag hfa hfc htx htt => ?_⟩
  · unfold parse_details_xml
    by_cases hs : s = "" <;> simp [hs, hpx]
  · unfold parse_details_xml
    simp only [if_neg hs, hpx, htag, if_true]
    unfold fillDetails find_any
    rw [hfc]
    simp [textTruthy, htx, bne_iff_ne, htt]
  · unfold parse_details_xml
    simp only [if_neg hs, hpx]
    rw [if_neg htag]
    rw [hfa]
    simp [fillDetails, find_any, hfc, textTruthy, htx, bne_iff_ne, htt]

/-- Claim C4 witness: a concrete descriptor with root `app` element and
a `version` child of text `" 1.0 "` parses to version `"1.0"`. -/
theorem c4_parse_details_soft_witness :
    (parse_details_xml
        (fun s => if s = "<a>" then
          some (Xml.elem "app" none [Xml.elem "version" (some " 1.0 ") []]) else none)
        "<a>").version = pyStrip " 1.0 " :=
  (c4_parse_details_soft _).2.1 "<a>"
    (Xml.elem "app" none [Xml.elem "version" (some " 1.0 ") []])
    (Xml.elem "version" (some " 1.0 ") []) " 1.0 "
    (by decide) rfl (by decide) rfl rfl (by decide)

/-! ## Claim C5: deduplication keeps the first occurrence per key -/

theorem dedupAux_sublist : ∀ (l : List Item) (seen), (dedupAux seen l).Sublist l := by
  intro l
  induction l with
  | nil => intro seen; exact List.Sublist.refl _
  | cons x xs ih =>
    intro seen
    unfold dedupAux
    by_cases h : dkey x ∈ seen ∨ dkey x = ("", "")
    · simp only [if_pos h]
      exact (ih seen).trans (List.sublist_cons_self x xs)
    · simp only [if_neg h]
      exact (ih (dkey x :: seen)).cons₂ x

theorem dedupAux_key_ne :
    ∀ (l : List Item) (seen) (x), x ∈ dedupAux seen l → dkey x ≠ ("", "") := by
  intro l
  induction l with
  | nil => intro seen x hx; simp [dedupAux] at hx
  | cons y ys ih =>
    intro seen x hx
    unfold dedupAux at hx
    by_cases h : dkey y ∈ seen ∨ dkey y = ("", "")
    · rw [if_pos h] at hx
      exact ih seen x hx
    · rw [if_neg h] at hx
      rcases List.mem_cons.mp hx with h1 | h2
      · rw [h1]
        exact fun he => h (Or.inr he)
      · exact ih _ x h2

theorem dedupAux_nodup_keys :
    ∀ (l : List Item) (seen),
      ((dedupAux seen l).map dkey).Nodup ∧
        ∀ k ∈ (dedupAux seen l).map dkey, k ∉ seen := by
  intro l
  induction l with
  | nil => intro seen; simp [dedupAux]
  | cons x xs ih =>
    intro seen
    unfold dedupAux
    by_cases h : dkey x ∈ seen ∨ dkey x = ("", "")
    · rw [if_pos h]
      exact ih seen
    · rw [if_neg h]
      have hx : dkey x ∉ seen := fun hm => h (Or.inl hm)
      obtain ⟨hnd, hout⟩ := ih (dkey x :: seen)
      refine ⟨?_, ?_⟩
      · simp only [List.map_cons, List.nodup_cons]
        refine ⟨fun hmem => ?_, hnd⟩
        exact (hout _ hmem) (List.mem_cons_self _ _)
      · intro k hk
        rw [List.map_cons] at hk
        rcases List.mem_cons.mp hk with h1 | h2
        · rw [h1]; exact hx
        · intro hks
          exact (hout k h2) (List.mem_cons_of_mem _ hks)

theorem dedupAux_complete :
    ∀ (l : List Item) (seen) (k), (∃ x ∈ l, dkey x = k) → k ≠ ("", "") →
      k ∉ seen → ∃ y ∈ dedupAux seen l, dkey y = k := by
  intro l
  induction l with
  | nil =>
    intro seen k hex
    simp at hex
  | cons x xs ih =>
    intro seen k hex hk hks
    unfold dedupAux
    by_cases h : dkey x ∈ seen ∨ dkey x = ("", "")
    · rw [if_pos h]
      rcases hex with ⟨z, hz, hzk⟩
      rcases List.mem_cons.mp hz with h1 | h2
      · exfalso
        rw [h1] at hzk
        rcases h with hm | he
        · rw [hzk] at hm
          exact hks hm
        · rw [hzk] at he
          exact hk he
      · exact ih seen k ⟨z, h2, hzk⟩ hk hks
    · rw [if_neg h]
      by_cases hkx : dkey x = k
      · exact ⟨x, List.mem_cons_self _ _, hkx⟩
      · rcases hex with ⟨z, hz, hzk⟩
        rcases List.mem_cons.mp hz with h1 | h2
        · exact absurd (h1 ▸ hzk) hkx
        · have hks2 : k ∉ dkey x :: seen := by
            intro hm
            rcases List.mem_cons.mp hm with h3 | h4
            · exact hkx h3.symm
            · exact hks h4
          obtain ⟨y, hy, hyk⟩ := ih (dkey x :: seen) k ⟨z, h2, hzk⟩ hk hks2
          exact ⟨y, List.mem_cons_of_mem _ hy, hyk⟩

theorem dedupAux_first :
    ∀ (l1 : List Item) (x : Item) (l2 : List Item) (seen),
      dkey x ∉ seen → dkey x ≠ ("", "") → (∀ y ∈ l1, dkey y ≠ dkey x) →
      x ∈ dedupAux seen (l1 ++ x :: l2) := by
  intro l1
  induction l1 with
  | nil =>
    intro x l2 seen hs hk _
    simp only [List.nil_append]
    show x ∈ (if dkey x ∈ seen ∨ dkey x = ("", "") then dedupAux seen l2
      else x :: dedupAux (dkey x :: seen) l2)
    rw [if_neg (fun h => h.elim hs hk)]
    exact List.mem_cons_self _ _
  | cons y ys ih =>
    intro x l2 seen hs hk hall
    have hyx : dkey y ≠ dkey x := hall y (List.mem_cons_self _ _)
    have hall2 : ∀ z ∈ ys, dkey z ≠ dkey x :=
      fun z hz => hall z (List.mem_cons_of_mem _ hz)
    simp only [List.cons_append]
    unfold dedupAux
    by_cases h : dkey y ∈ seen ∨ dkey y = ("", "")
    · rw [if_pos h]
      exact ih x l2 seen hs hk hall2
    · rw [if_neg h]
      refine List.mem_cons_of_mem _ (ih x l2 (dkey y :: seen) ?_ hk hall2)
      intro hm
      rcases List.mem_cons.mp hm with h1 | h2
      · exact hyx h1.symm
      · exact hs h2

theorem seenAfter_mono :
    ∀ (l : List Item) (seen) (k), k ∈ seen → k ∈ seenAfter seen l := by
  intro l
  induction l with
  | nil => intro seen k hk; exact hk
  | cons x xs ih =>
    intro seen k hk
    unfold seenAfter
    by_cases h : dkey x ∈ seen ∨ dkey x = ("", "")
    · rw [if_pos h]; exact ih seen k hk
    · rw [if_neg h]; exact ih _ k (List.mem_cons_of_mem _ hk)

theorem seenAfter_mem :
    ∀ (l1 : List Item) (y : Item) (seen), y ∈ l1 → dkey y ≠ ("", "") →
      dkey y ∈ seenAfter seen l1 := by
  intro l1
  induction l1 with
  | nil => intro y seen hy; simp at hy
  | cons z zs ih =>
    intro y seen hy hk
    unfold seenAfter
    rcases List.mem_cons.mp hy with h1 | h2
    · subst h1
      by_cases h : dkey y ∈ seen ∨ dkey y = ("", "")
      · rw [if_pos h]
        rcases h with hm | he
        · exact seenAfter_mono zs seen _ hm
        · exact absurd he hk
      · rw [if_neg h]
        exact seenAfter_mono zs _ _ (List.mem_cons_self _ _)
    · by_cases h : dkey z ∈ seen ∨ dkey z = ("", "")
      · rw [if_pos h]; exact ih y seen h2 hk
      · rw [if_neg h]; exact ih y _ h2 hk

theorem dedupAux_skip :
    ∀ (l1 : List Item) (x : Item) (l2 : List Item) (seen),
      (dkey x ∈ seenAfter seen l1 ∨ dkey x = ("", "")) →
      dedupAux seen (l1 ++ x :: l2) = dedupAux seen (l1 ++ l2) := by
  intro l1
  induction l1 with
  | nil =>
    intro x l2 seen h
    simp only [List.nil_append]
    simp only [seenAfter] at h
    show (if dkey x ∈ seen ∨ dkey x = ("", "") then dedupAux seen l2
        else x :: dedupAux (dkey x :: seen) l2) = dedupAux seen l2
    rw [if_pos h]
  | cons y ys ih =>
    intro x l2 seen h
    simp only [List.cons_append]
    simp only [seenAfter] at h
    show (if dkey y ∈ seen ∨ dkey y = ("", "") then dedupAux seen (ys ++ x :: l2)
        else y :: dedupAux (dkey y :: seen) (ys ++ x :: l2)) =
      (if dkey y ∈ seen ∨ dkey y = ("", "") then dedupAux seen (ys ++ l2)
        else y :: dedupAux (dkey y :: seen) (ys ++ l2))
    by_cases hy : dkey y ∈ seen ∨ dkey y = ("", "")
    · rw [if_pos hy, if_pos hy]
      rw [if_pos hy] at h
      exact ih x l2 seen h
    · rw [if_neg hy, if_neg hy]
      rw [if_neg hy] at h
      rw [ih x l2 (dkey y :: seen) h]

/-- Claim C5.  The dedup step over resolved entries: the kept list is a
sublist of the input (resolution order preserved); no kept entry has the
all-empty key; kept keys are pairwise distinct; every input entry whose
key `(app-or-name, publisher)` is not all-empty is represented; the
first occurrence of a key (no earlier entry sharing it) is kept; and an
entry preceded by an earlier entry of the same key — e.g. the same
`(appName, publisher)` under a different `repoId` — is dropped, leaving
the result as if it were absent. -/
theorem c5_dedup_first_wins (l : List Item) :
    (dedup_entries l).Sublist l ∧
    (∀ x ∈ dedup_entries l, dkey x ≠ ("", "")) ∧
    ((dedup_entries l).map dkey).Nodup ∧
    (∀ x ∈ l, dkey x ≠ ("", "") → ∃ y ∈ dedup_entries l, dkey y = dkey x) ∧
    (∀ l1 x l2, l = l1 ++ x :: l2 → dkey x ≠ ("", "") →
      (∀ y ∈ l1, dkey y ≠ dkey x) → x ∈ dedup_entries l) ∧
    (∀ l1 x l2, l = l1 ++ x :: l2 → (∃ y ∈ l1, dkey y = dkey x) →
      dedup_entries l = dedup_entries (l1 ++ l2)) := by
  refine ⟨dedupAux_sublist l [], fun x hx => dedupAux_key_ne l [] x hx,
    (dedupAux_nodup_keys l []).1,
    fun x hx hk => dedupAux_complete l [] (dkey x) ⟨x, hx, rfl⟩ hk (by simp),
    fun l1 x l2 hl hk hall => ?_, fun l1 x l2 hl hex => ?_⟩
  · rw [hl]
    exact dedupAux_first l1 x l2 [] (by simp) hk hall
  · rw [hl]
    unfold dedup_entries
    by_cases hk : dkey x = ("", "")
    · exact dedupAux_skip l1 x l2 [] (Or.inr hk)
    · rcases hex with ⟨y, hy, hyk⟩
      refine dedupAux_skip l1 x l2 [] (Or.inl ?_)
      rw [← hyk]
      exact seenAfter_mem l1 y [] hy (fun he => hk (hyk ▸ he))

/-- Claim C5 witness: two entries with the same `(app, publisher)` key
but different repo ids — the second is dropped, as if absent. -/
theorem c5_dedup_first_wins_witness :
    dedup_entries [⟨"r1", "a", "n", "p"⟩, ⟨"r2", "a", "n", "p"⟩] =
      dedup_entries [⟨"r1", "a", "n", "p"⟩] :=
  (c5_dedup_first_wins _).2.2.2.2.2 [⟨"r1", "a", "n", "p"⟩] ⟨"r2", "a", "n", "p"⟩ []
    rfl ⟨⟨"r1", "a", "n", "p"⟩, by decide, by decide⟩

/-! ## Claim C6: finalization move semantics -/

theorem lookupFs_append :
    ∀ (d1 d2 : List (String × FsNode)) (n : String),
      lookupFs (d1 ++ d2) n =
        match lookupFs d1 n with
        | some v => some v
        | none => lookupFs d2 n := by
  intro d1
  induction d1 with
  | nil => intro d2 n; rfl
  | cons p rest ih =>
    intro d2 n
    simp only [List.cons_append, lookupFs]
    by_cases hp : p.1 = n
    · simp [hp]
    · simp [hp, ih]

theorem lookupFs_eraseKeyF_self :
    ∀ (d : List (String × FsNode)) (m : String), lookupFs (eraseKeyF d m) m = none := by
  intro d
  induction d with
  | nil => intro m; rfl
  | cons p rest ih =>
    intro m
    unfold eraseKeyF
    by_cases hp : p.1 = m
    · rw [if_pos hp]; exact ih m
    · rw [if_neg hp]
      unfold lookupFs
      rw [if_neg hp]
      exact ih m

theorem lookupFs_eraseKeyF_ne :
    ∀ (d : List (String × FsNode)) (m n : String), n ≠ m →
      lookupFs (eraseKeyF d m) n = lookupFs d n := by
  intro d
  induction d with
  | nil => intro m n h; rfl
  | cons p rest ih =>
    intro m n h
    unfold eraseKeyF
    by_cases hpm : p.1 = m
    · rw [if_pos hpm]
      rw [ih m n h]
      show lookupFs rest n = (if p.1 = n then some p.2 else lookupFs rest n)
      rw [if_neg (fun he => h (he.symm.trans hpm))]
    · rw [if_neg hpm]
      show (if p.1 = n then some p.2 else lookupFs (eraseKeyF rest m) n) =
        (if p.1 = n then some p.2 else lookupFs rest n)
      by_cases hpn : p.1 = n
      · rw [if_pos hpn, if_pos hpn]
      · rw [if_neg hpn, if_neg hpn]
        exact ih m n h

theorem lookupFs_moveOne_self (d : List (String × FsNode)) (e : String × FsNode) :
    lookupFs (moveOne d e) e.1 = some e.2 := by
  unfold moveOne
  rw [lookupFs_append, lookupFs_eraseKeyF_self]
  simp [lookupFs]

theorem lookupFs_moveOne_ne (d : List (String × FsNode)) (e : String × FsNode)
    (n : String) (h : n ≠ e.1) :
    lookupFs (moveOne d e) n = lookupFs d n := by
  unfold moveOne
  rw [lookupFs_append, lookupFs_eraseKeyF_ne d e.1 n h]
  have hne : ¬ e.1 = n := fun he => h he.symm
  rcases hd : lookupFs d n with _ | v
  · simp [lookupFs, hne]
  · simp

theorem lookupFs_moveAll_notmem :
    ∀ (items : List (String × FsNode)) (d : List (String × FsNode)) (n : String),
      n ∉ items.map Prod.fst → lookupFs (moveAll items d) n = lookupFs d n := by
  intro items
  induction items with
  | nil => intro d n _; rfl
  | cons e rest ih =>
    intro d n hn
    rw [List.map_cons] at hn
    have h1 : n ≠ e.1 := fun he => hn (he ▸ List.mem_cons_self _ _)
    have h2 : n ∉ rest.map Prod.fst := fun hm => hn (List.mem_cons_of_mem _ hm)
    show lookupFs (moveAll rest (moveOne d e)) n = lookupFs d n
    rw [ih (moveOne d e) n h2, lookupFs_moveOne_ne d e n h1]

theorem lookupFs_moveAll_mem :
    ∀ (items : List (String × FsNode)) (d : List (String × FsNode)) (n : String)
      (v : FsNode), (items.map Prod.fst).Nodup → (n, v) ∈ items →
      lookupFs (moveAll items d) n = some v := by
  intro items
  induction items with
  | nil => intro d n v _ hm; simp at hm
  | cons e rest ih =>
    intro d n v hnd hm
    rw [List.map_cons, List.nodup_cons] at hnd
    rcases List.mem_cons.mp hm with h1 | h2
    · have hn : n ∉ rest.map Prod.fst := by
        rw [← h1] at hnd
        exact hnd.1
      show lookupFs (moveAll rest (moveOne d e)) n = some v
      rw [lookupFs_moveAll_notmem rest (moveOne d e) n hn, ← h1]
      exact lookupFs_moveOne_self d (n, v)
    · show lookupFs (moveAll rest (moveOne d e)) n = some v
      exact ih (moveOne d e) n v hnd.2 h2

theorem movePhase_not_single_dir :
    ∀ (es d : List (String × FsNode)),
      (∀ w cs, es ≠ [(w, FsNode.dir cs)]) → movePhase es d = moveAll es d := by
  intro es d h
  match es with
  | [] => rfl
  | (n, FsNode.file c) :: [] => rfl
  | (n, FsNode.dir cs) :: [] => exact absurd rfl (h n cs)
  | (n, FsNode.file c) :: e2 :: rest => rfl
  | (n, FsNode.dir cs) :: e2 :: rest => rfl

theorem lookupFs_writeFileSoft_ne (d : List (String × FsNode)) (m c n : String)
    (h : n ≠ m) : lookupFs (writeFileSoft d m c) n = lookupFs d n := by
  unfold writeFileSoft
  have hne : ¬ m = n := fun he => h he.symm
  rcases hd : lookupFs d m with _ | v
  · rw [lookupFs_append, lookupFs_eraseKeyF_ne d m n h]
    rcases hn : lookupFs d n with _ | w
    · simp [lookupFs, hne]
    · simp
  · rcases v with c0 | es
    · rw [lookupFs_append, lookupFs_eraseKeyF_ne d m n h]
      rcases hn : lookupFs d n with _ | w
      · simp [lookupFs, hne]
      · simp
    · rfl

theorem lookupFs_finalizeDest_ne (details_xml readme : String)
    (es : List (String × FsNode)) (n : String)
    (h1 : n ≠ "details.xml") (h2 : n ≠ "README.md") :
    lookupFs (finalizeDest details_xml readme es) n = lookupFs (movePhase es []) n := by
  simp only [finalizeDest]
  by_cases hr : readme = ""
  · rw [if_neg (show ¬readme ≠ "" from fun hh => hh hr)]
    by_cases hd : details_xml = ""
    · rw [if_neg (show ¬details_xml ≠ "" from fun hh => hh hd)]
    · rw [if_pos (show details_xml ≠ "" from hd)]
      exact lookupFs_writeFileSoft_ne _ _ _ _ h1
  · rw [if_pos (show readme ≠ "" from hr)]
    rw [lookupFs_writeFileSoft_ne _ _ _ _ h2]
    by_cases hd : details_xml = ""
    · rw [if_neg (show ¬details_xml ≠ "" from fun hh => hh hd)]
    · rw [if_pos (show details_xml ≠ "" from hd)]
      exact lookupFs_writeFileSoft_ne _ _ _ _ h1

theorem downloadCancelled_none :
    ∀ (chunks : List (List Nat)) (i : Nat), downloadCancelled none chunks i = false := by
  intro chunks
  induction chunks with
  | nil => intro i; rfl
  | cons c cs ih =>
    intro i
    unfold downloadCancelled
    simp [cancelledAt, ih]

theorem installRun_success (unescape : String → String) (info : InstallInfo)
    (env : InstallEnv) (h200 : env.status = 200) (hcf : env.cancelFrom = none)
    (hex : env.extractOk = true) :
    installRun unescape info env =
      ⟨(true, "Instalado en: " ++ destName unescape info), false, false,
        some (finalizeDest info.details_xml info.readme env.zipEntries)⟩ := by
  unfold installRun
  rw [h200, hcf, downloadCancelled_none, hex]
  simp

/-- Claim C6.  On a successful install: when the archive extracted to a
single top-level directory, each child of that directory (names distinct,
not shadowed by the `details.xml`/`README.md` write-backs) ends up
directly under the destination and the wrapper directory itself does
not; when the extraction result is not a single directory, each
top-level entry ends up directly under the destination; and the move
primitive removes any pre-existing entry at the target name before the
move (last write wins) while leaving other names untouched. -/
theorem c6_finalize_moves (unescape : String → String) (info : InstallInfo)
    (env : InstallEnv) (h200 : env.status = 200) (hcf : env.cancelFrom = none)
    (hex : env.extractOk = true) :
    (∀ w cs n v, env.zipEntries = [(w, FsNode.dir cs)] →
      (cs.map Prod.fst).Nodup → (n, v) ∈ cs → n ≠ "details.xml" → n ≠ "README.md" →
      lookupFs (((installRun unescape info env).dest).getD []) n = some v) ∧
    (∀ w cs, env.zipEntries = [(w, FsNode.dir cs)] →
      w ∉ cs.map Prod.fst → w ≠ "details.xml" → w ≠ "README.md" →
      lookupFs (((installRun unescape info env).dest).getD []) w = none) ∧
    (∀ n v, (∀ w cs, env.zipEntries ≠ [(w, FsNode.dir cs)]) →
      (env.zipEntries.map Prod.fst).Nodup → (n, v) ∈ env.zipEntries →
      n ≠ "details.xml" → n ≠ "README.md" →
      lookupFs (((installRun unescape info env).dest).getD []) n = some v) ∧
    (∀ (d : List (String × FsNode)) (e : String × FsNode),
      lookupFs (moveOne d e) e.1 = some e.2 ∧
        ∀ m, m ≠ e.1 → lookupFs (moveOne d e) m = lookupFs d m) := by
  rw [installRun_success unescape info env h200 hcf hex]
  refine ⟨fun w cs n v hz hnd hm hn1 hn2 => ?_, fun w cs hz hw hw1 hw2 => ?_,
    fun n v ho hnd hm hn1 hn2 => ?_,
    fun d e => ⟨lookupFs_moveOne_self d e, fun m hm => lookupFs_moveOne_ne d e m hm⟩⟩
  · show lookupFs (finalizeDest info.details_xml info.readme env.zipEntries) n = some v
    rw [lookupFs_finalizeDest_ne _ _ _ _ hn1 hn2, hz]
    show lookupFs (moveAll cs []) n = some v
    exact lookupFs_moveAll_mem cs [] n v hnd hm
  · show lookupFs (finalizeDest info.details_xml info.readme env.zipEntries) w = none
    rw [lookupFs_finalizeDest_ne _ _ _ _ hw1 hw2, hz]
    show lookupFs (moveAll cs []) w = none
    rw [lookupFs_moveAll_notmem cs [] w hw]
    rfl
  · show lookupFs (finalizeDest info.details_xml info.readme env.zipEntries) n = some v
    rw [lookupFs_finalizeDest_ne _ _ _ _ hn1 hn2,
      movePhase_not_single_dir env.zipEntries [] ho]
    exact lookupFs_moveAll_mem env.zipEntries [] n v hnd hm

/-- Claim C6 witness: an archive of a single top-level directory
`repo-main` with one file child `f`; after install the file is directly
under the destination and no `repo-main` entry exists there. -/
theorem c6_finalize_moves_witness :
    lookupFs
        (((installRun id ⟨"r", "a", "n", "p", "1.0", "DX", "RM"⟩
          ⟨200, [[1]], none, true, "",
            [("repo-main", FsNode.dir [("f", FsNode.file "x")])], none⟩).dest).getD [])
        "f" = some (FsNode.file "x") :=
  (c6_finalize_moves id ⟨"r", "a", "n", "p", "1.0", "DX", "RM"⟩
      ⟨200, [[1]], none, true, "",
        [("repo-main", FsNode.dir [("f", FsNode.file "x")])], none⟩
      rfl rfl rfl).1 "repo-main" [("f", FsNode.file "x")] "f" (FsNode.file "x")
    rfl (by simp) (by simp) (by decide) (by decide)

/-! ## Claim C8: install / re-resolve round trip -/

theorem isPrefixOf_append_self : ∀ (l t : List Char), l.isPrefixOf (l ++ t) = true := by
  intro l t
  induction l with
  | nil => simp [List.isPrefixOf]
  | cons a as ih => simp [List.isPrefixOf, ih]

theorem filter_none {α : Type} (p : α → Bool) :
    ∀ (l : List α), (∀ a ∈ l, p a = false) → l.filter p = [] := by
  intro l
  induction l with
  | nil => intro _; rfl
  | cons a as ih =>
    intro h
    rw [List.filter_cons]
    rw [h a (List.mem_cons_self _ _)]
    exact ih (fun b hb => h b (List.mem_cons_of_mem _ hb))

theorem matchesInstalled_destName (unescape : String → String) (info : InstallInfo)
    (happ : info.app ≠ "") :
    matchesInstalled unescape info (destName unescape info) = true := by
  have h1 : pyOr info.app (pyOr info.name info.repo) = info.app := by simp [pyOr, happ]
  have h2 : pyOr info.app info.repo = info.app := by simp [pyOr, happ]
  unfold matchesInstalled destName resolverPub resolverNm
  rw [h1, h2]
  have h3 : (safe_name unescape (pyOr info.publisher "unknown") ++ "."
        ++ safe_name unescape info.app ++ "."
        ++ safe_name unescape (pyOr info.version "0.0.0")).toList
      = (safe_name unescape (pyOr info.publisher "unknown") ++ "."
        ++ safe_name unescape info.app ++ ".").toList
        ++ (safe_name unescape (pyOr info.version "0.0.0")).toList := by
    simp [String.toList, String.data_append]
  rw [h3]
  exact isPrefixOf_append_self _ _

theorem lookupFs_finalizeDest_details (dx rm : String) (es : List (String × FsNode))
    (hdx : dx ≠ "") (hnodir : isDirAt (movePhase es []) "details.xml" = false) :
    lookupFs (finalizeDest dx rm es) "details.xml" = some (FsNode.file dx) := by
  simp only [finalizeDest]
  rw [if_pos hdx]
  have hw : lookupFs (writeFileSoft (movePhase es []) "details.xml" dx) "details.xml"
      = some (FsNode.file dx) := by
    unfold writeFileSoft
    rcases hl : lookupFs (movePhase es []) "details.xml" with _ | v
    · simp only [hl]
      rw [lookupFs_append, lookupFs_eraseKeyF_self]
      simp [lookupFs]
    · rcases v with c | cs
      · simp only [hl]
        rw [lookupFs_append, lookupFs_eraseKeyF_self]
        simp [lookupFs]
      · exfalso
        unfold isDirAt at hnodir
        rw [hl] at hnodir
        simp at hnodir
  by_cases hr : rm = ""
  · rw [if_neg (show ¬rm ≠ "" from fun hh => hh hr)]
    exact hw
  · rw [if_pos (show rm ≠ "" from hr)]
    rw [lookupFs_writeFileSoft_ne _ _ _ _
      (by decide : ("details.xml" : String) ≠ "README.md")]
    exact hw

/-- Claim C8, counterexample.  A reachable entry whose fetched
descriptor text parses but contains no version element is given the
defaulted version `"0.0.0"` — non-empty, so the claim covers it.  Its
install completes successfully and writes that descriptor back; yet
re-resolving through `installed_version_for` over a root holding exactly
the new destination returns no installed version (the stored descriptor
parses back to version `""`, which the resolver maps to `None`), so
`installedVersion` is `none`, not `some "0.0.0"`: the claim as stated
fails at this input. -/
theorem c8_counterexample :
    ((installRun id ⟨"r", "a", "n", "p", "0.0.0", "DX", "RM"⟩
        ⟨200, [[1]], none, true, "", [], none⟩).result).1 = true ∧
    ("0.0.0" : String) ≠ "" ∧
    (installed_version_for
        (fun s => if s = "DX" then
          some (Xml.elem "app" none [Xml.elem "name" (some "nm") []]) else none)
        id
        [(destName id ⟨"r", "a", "n", "p", "0.0.0", "DX", "RM"⟩,
          destDetailsContent (((installRun id ⟨"r", "a", "n", "p", "0.0.0", "DX", "RM"⟩
            ⟨200, [[1]], none, true, "", [], none⟩).dest).getD []))]
        ⟨"r", "a", "n", "p", "0.0.0", "DX", "RM"⟩).1 = none ∧
    (none : Option String) ≠ some "0.0.0" := by
  decide

/-- Claim C8, amended.  An entry whose fetched descriptor text is
non-empty and parses back to the entry's own non-empty version (the
case where the fetcher did not default it), whose extracted archive does
not place a directory at `details.xml`, installed successfully, with no
other directory in the installation root matching the
`{publisher}.{app}.*` scan pattern: re-resolving through
`installed_version_for` reports the installed version equal to the
entry's version and the installed path equal to the destination, and the
update-availability recomputation yields false. -/
theorem c8_roundtrip (px : String → Option Xml) (unescape : String → String)
    (info : InstallInfo) (env : InstallEnv) (others : List (String × Option String))
    (h200 : env.status = 200) (hcf : env.cancelFrom = none) (hex : env.extractOk = true)
    (happ : info.app ≠ "") (hdx : info.details_xml ≠ "") (hver : info.version ≠ "")
    (hparse : (parse_details_xml px info.details_xml).version = info.version)
    (hnodir : isDirAt (movePhase env.zipEntries []) "details.xml" = false)
    (hothers : ∀ d ∈ others, matchesInstalled unescape info d.1 = false) :
    installed_version_for px unescape
        ((destName unescape info,
          destDetailsContent (((installRun unescape info env).dest).getD [])) :: others)
        info
      = (some info.version, some (destName unescape info)) ∧
      update_available (some info.version) info.version = false := by
  rw [installRun_success unescape info env h200 hcf hex]
  show installed_version_for px unescape
      ((destName unescape info,
        destDetailsContent (finalizeDest info.details_xml info.readme env.zipEntries))
        :: others) info
    = (some info.version, some (destName unescape info)) ∧
    update_available (some info.version) info.version = false
  have hdet : destDetailsContent (finalizeDest info.details_xml info.readme env.zipEntries)
      = some info.details_xml := by
    unfold destDetailsContent
    rw [lookupFs_finalizeDest_details _ _ _ hdx hnodir]
  rw [hdet]
  constructor
  · unfold installed_version_for
    have hfil : List.filter (fun d => matchesInstalled unescape info d.1)
        ((destName unescape info, some info.details_xml) :: others)
        = [(destName unescape info, some info.details_xml)] := by
      rw [List.filter_cons]
      have hp : matchesInstalled unescape info
          ((destName unescape info, some info.details_xml)).1 = true :=
        matchesInstalled_destName unescape info happ
      rw [hp]
      simp only [if_true]
      rw [filter_none _ others (fun d hd => hothers d hd)]
    rw [hfil]
    show (strOrNone (parse_details_xml px info.details_xml).version,
        some (destName unescape info))
      = (some info.version, some (destName unescape info))
    rw [hparse]
    unfold strOrNone
    rw [if_neg hver]
  · simp [update_available]

/-- Claim C8 witness: a concrete entry of version `"1.0"` with its
descriptor, installed from an empty archive into an otherwise empty
root, re-resolves to installed version `"1.0"` and no update. -/
theorem c8_roundtrip_witness :
    installed_version_for
        (fun s => if s = "DX" then
          some (Xml.elem "app" none [Xml.elem "version" (some "1.0") []]) else none)
        id
        ((destName id ⟨"r", "a", "n", "p", "1.0", "DX", "RM"⟩,
          destDetailsContent (((installRun id ⟨"r", "a", "n", "p", "1.0", "DX", "RM"⟩
            ⟨200, [[1]], none, true, "", [], none⟩).dest).getD [])) :: [])
        ⟨"r", "a", "n", "p", "1.0", "DX", "RM"⟩
      = (some "1.0", some (destName id ⟨"r", "a", "n", "p", "1.0", "DX", "RM"⟩)) ∧
      update_available (some "1.0") "1.0" = false :=
  c8_roundtrip
    (fun s => if s = "DX" then
      some (Xml.elem "app" none [Xml.elem "version" (some "1.0") []]) else none)
    id ⟨"r", "a", "n", "p", "1.0", "DX", "RM"⟩ ⟨200, [[1]], none, true, "", [], none⟩ []
    rfl rfl rfl (by decide) (by decide) (by decide) (by decide) (by decide) (by simp)

/-! ## Claims C9 and C10: the update daemon -/

theorem ulookup_setFileU_self (fs : UFS) (k v : String) :
    ulookup (setFileU fs k v) k = some v := by
  unfold setFileU
  simp [ulookup]

theorem ulookup_eraseKeyU_ne :
    ∀ (fs : UFS) (m n : String), n ≠ m → ulookup (eraseKeyU fs m) n = ulookup fs n := by
  intro fs
  induction fs with
  | nil => intro m n _; rfl
  | cons p rest ih =>
    intro m n h
    unfold eraseKeyU
    by_cases hpm : p.1 = m
    · rw [if_pos hpm]
      rw [ih m n h]
      show ulookup rest n = (if p.1 = n then some p.2 else ulookup rest n)
      rw [if_neg (fun he => h (he.symm.trans hpm))]
    · rw [if_neg hpm]
      show (if p.1 = n then some p.2 else ulookup (eraseKeyU rest m) n) =
        (if p.1 = n then some p.2 else ulookup rest n)
      by_cases hpn : p.1 = n
      · rw [if_pos hpn, if_pos hpn]
      · rw [if_neg hpn, if_neg hpn]
        exact ih m n h

theorem ulookup_setFileU_ne (fs : UFS) (k v n : String) (h : n ≠ k) :
    ulookup (setFileU fs k v) n = ulookup fs n := by
  unfold setFileU
  show (if k = n then some v else ulookup (eraseKeyU fs k) n) = ulookup fs n
  rw [if_neg (fun he => h he.symm)]
  exact ulookup_eraseKeyU_ne fs k n h

theorem ulookup_safe_backup_ne (fs : UFS) (p n : String) (h : n ≠ p ++ ".bak") :
    ulookup (safe_backup fs p) n = ulookup fs n := by
  unfold safe_backup
  rcases hl : ulookup fs p with _ | c
  · rfl
  · exact ulookup_setFileU_ne fs (p ++ ".bak") c n h

theorem append_bak_eq (n : String) (h : n ++ ".bak" = "details.xml.bak") :
    n = "details.xml" := by
  have hd : n.data ++ (".bak" : String).data = ("details.xml.bak" : String).data := by
    rw [← String.data_append, h]
  have he : ("details.xml.bak" : String).data
      = ("details.xml" : String).data ++ (".bak" : String).data := by decide
  rw [he] at hd
  exact String.ext (List.append_cancel_right hd)

theorem walk_names_spec (fs : UFS) :
    ∀ m ∈ walk_names fs, strEndsWith m ".bak" = false ∧ m ≠ "details.xml" := by
  intro m hm
  unfold walk_names at hm
  rw [List.mem_filter] at hm
  obtain ⟨_, hp⟩ := hm
  simp only [Bool.and_eq_true, Bool.not_eq_true', beq_eq_false_iff_ne] at hp
  exact hp

theorem sync_files_preserves_dbak (rf : String → Option String) :
    ∀ (names : List String) (fs : UFS),
      (∀ n ∈ names, strEndsWith n ".bak" = false ∧ n ≠ "details.xml") →
      ulookup (sync_files rf names fs) "details.xml.bak"
        = ulookup fs "details.xml.bak" := by
  intro names
  induction names with
  | nil => intro fs _; rfl
  | cons n ns ih =>
    intro fs h
    obtain ⟨hn1, hn2⟩ := h n (List.mem_cons_self _ _)
    show ulookup (sync_files rf ns (sync_step rf fs n)) "details.xml.bak"
      = ulookup fs "details.xml.bak"
    rw [ih (sync_step rf fs n) (fun m hm => h m (List.mem_cons_of_mem _ hm))]
    unfold sync_step
    rcases hrf : rf n with _ | c
    · rfl
    · have hK1 : ("details.xml.bak" : String) ≠ n := by
        intro he
        rw [← he] at hn1
        exact Bool.noConfusion ((by decide :
          strEndsWith "details.xml.bak" ".bak" = true).symm.trans hn1)
      have hK2 : ("details.xml.bak" : String) ≠ n ++ ".bak" := by
        intro he
        exact hn2 (append_bak_eq n he.symm)
      rw [ulookup_setFileU_ne _ _ _ _ hK1]
      exact ulookup_safe_backup_ne fs n _ hK2

/-- The data carried by a firing guard cascade: the equations of every
passed guard. -/
theorem update_guards_some_spec (px : String → Option Xml) (remoteResp : Option String)
    (fs : UFS) (app_id local_ver remote_xml remote_ver : String)
    (hg : update_guards px remoteResp fs
      = some (app_id, local_ver, remote_xml, remote_ver)) :
    ∃ localTxt,
      ulookup fs "details.xml" = some localTxt ∧
      parse_details px localTxt = some (app_id, local_ver) ∧ app_id ≠ "" ∧
      remote_details px remoteResp = some (remote_xml, remote_ver) ∧ remote_ver ≠ "" ∧
      pyTupLt (version_tuple local_ver) (version_tuple remote_ver) = true := by
  unfold update_guards at hg
  split at hg
  · exact Option.noConfusion hg
  next localTxt hl =>
    split at hg
    · exact Option.noConfusion hg
    next a lv hp =>
      split at hg
      · exact Option.noConfusion hg
      next ha =>
        split at hg
        · exact Option.noConfusion hg
        next rx rv hr =>
          split at hg
          · exact Option.noConfusion hg
          next hrv =>
            split at hg
            next hlt =>
              simp only [Option.some.injEq, Prod.mk.injEq] at hg
              obtain ⟨e1, e2, e3, e4⟩ := hg
              subst e1
              subst e2
              subst e3
              subst e4
              exact ⟨localTxt, hl, hp, ha, hr, hrv, hlt⟩
            next hlt => exact Option.noConfusion hg

theorem update_app_of_guards_none (px : String → Option Xml) (remoteResp : Option String)
    (remoteFile : String → Option String) (fs : UFS)
    (hg : update_guards px remoteResp fs = none) :
    update_app px remoteResp remoteFile fs = (none, fs) := by
  unfold update_app
  rw [hg]

theorem update_app_of_guards_some (px : String → Option Xml) (remoteResp : Option String)
    (remoteFile : String → Option String) (fs : UFS)
    (app_id local_ver remote_xml remote_ver : String)
    (hg : update_guards px remoteResp fs
      = some (app_id, local_ver, remote_xml, remote_ver)) :
    update_app px remoteResp remoteFile fs =
      (some (app_id, local_ver, remote_ver),
        sync_files remoteFile
          (walk_names (setFileU (safe_backup fs "details.xml") "details.xml" remote_xml))
          (setFileU (safe_backup fs "details.xml") "details.xml" remote_xml)) := by
  unfold update_app
  rw [hg]

/-- Claim C9.  Whenever one `update_app` run changes the content of the
local descriptor `details.xml`, the resulting folder holds
`details.xml.bak` with exactly the previous descriptor content (the
backup was taken before the overwrite and survives the per-file sync),
and every guard held: in particular the remote version digit tuple was
strictly greater than the local one.  No execution overwrites the
descriptor without that backup. -/
theorem c9_backup_before_overwrite (px : String → Option Xml) (remoteResp : Option String)
    (remoteFile : String → Option String) (fs : UFS)
    (hchg : ulookup (update_app px remoteResp remoteFile fs).2 "details.xml"
      ≠ ulookup fs "details.xml") :
    ulookup (update_app px remoteResp remoteFile fs).2 "details.xml.bak"
        = ulookup fs "details.xml" ∧
      ∃ localTxt pr rr,
        ulookup fs "details.xml" = some localTxt ∧
        parse_details px localTxt = some pr ∧
        remote_details px remoteResp = some rr ∧
        pyTupLt (version_tuple pr.2) (version_tuple rr.2) = true := by
  rcases hg : update_guards px remoteResp fs with _ | ⟨app_id, local_ver, remote_xml, remote_ver⟩
  · rw [update_app_of_guards_none px remoteResp remoteFile fs hg] at hchg
    exact absurd rfl hchg
  · obtain ⟨localTxt, hl, hp, ha, hr, hrv, hlt⟩ :=
      update_guards_some_spec px remoteResp fs _ _ _ _ hg
    rw [update_app_of_guards_some px remoteResp remoteFile fs _ _ _ _ hg]
    refine ⟨?_, localTxt, (app_id, local_ver), (remote_xml, remote_ver), hl, hp, hr, hlt⟩
    show ulookup (sync_files remoteFile _ _) "details.xml.bak" = ulookup fs "details.xml"
    rw [sync_files_preserves_dbak remoteFile _ _ (walk_names_spec _)]
    rw [ulookup_setFileU_ne _ _ _ _
      (by decide : ("details.xml.bak" : String) ≠ "details.xml")]
    unfold safe_backup
    rw [hl]
    exact ulookup_setFileU_self fs ("details.xml" ++ ".bak") localTxt

/-- Claim C9 witness: a folder whose descriptor parses to version `"1"`
against a remote of version `"2"`; after the update the backup file
holds the old descriptor. -/
theorem c9_backup_before_overwrite_witness :
    ulookup (update_app
        (fun s => if s = "L" then
          some (Xml.elem "d" none
            [Xml.elem "app" (some "a") [], Xml.elem "version" (some "1") []])
        else if s = "R" then
          some (Xml.elem "d" none [Xml.elem "version" (some "2") []])
        else none)
        (some "R") (fun _ => none) [("details.xml", "L")]).2 "details.xml.bak"
      = ulookup [("details.xml", "L")] "details.xml" :=
  (c9_backup_before_overwrite
    (fun s => if s = "L" then
      some (Xml.elem "d" none
        [Xml.elem "app" (some "a") [], Xml.elem "version" (some "1") []])
    else if s = "R" then
      some (Xml.elem "d" none [Xml.elem "version" (some "2") []])
    else none)
    (some "R") (fun _ => none) [("details.xml", "L")] (by decide)).1

/-- Claim C10.  When the guard cascade does not fire — no readable local
descriptor with a truthy app id, no remote version, or a remote digit
tuple not strictly greater than the local one — `update_app` returns no
result and the folder is exactly unchanged: no backup created, no file
rewritten. -/
theorem c10_no_update_frame (px : String → Option Xml) (remoteResp : Option String)
    (remoteFile : String → Option String) (fs : UFS)
    (h : update_fires px remoteResp fs = false) :
    update_app px remoteResp remoteFile fs = (none, fs) := by
  rcases hg : update_guards px remoteResp fs with _ | g
  · exact update_app_of_guards_none px remoteResp remoteFile fs hg
  · exfalso
    unfold update_fires at h
    rw [hg] at h
    exact Bool.noConfusion h

/-- Claim C10 witness: an empty folder (no descriptor): `update_app`
returns no result and the folder stays empty. -/
theorem c10_no_update_frame_witness :
    update_app (fun _ => none) none (fun _ => none) [] = (none, []) :=
  c10_no_update_frame (fun _ => none) none (fun _ => none) [] rfl

end Flatr
